import Mathlib

/-!
Shallow embedding of `equinox/nn/_normalisation.py` (`LayerNorm`, `GroupNorm`).

Arrays are modelled in row-major (C-order) form: a flat `List ℝ` of data
together, where needed, with a `List ℕ` of axis sizes.  With this encoding
`reshape` is a pure metadata change on the flat data, and mapping a reduction
over the leading axis of an array of shape `(g, m, d1, ..., dk)` is acting on
`g` contiguous blocks of `m * d1 * ... * dk` elements each.

Fallible operations (`jnp.ones(None)`, `reshape` with a size mismatch,
constructor validation) are modelled with `Except String`.
-/

namespace Equinox

noncomputable section

/-- `jnp.mean(x, keepdims=True)` over the whole (flattened) array:
the sum of the elements divided by the element count. -/
def jnpMean (l : List ℝ) : ℝ := l.sum / l.length

/-- `jnp.var(x, keepdims=True)`: the population variance, i.e. the mean of the
squared deviations from the mean (division by the count, not count minus 1). -/
def jnpVar (l : List ℝ) : ℝ := jnpMean (l.map (fun a => (a - jnpMean l) ^ 2))

/-- `jax.lax.rsqrt`: reciprocal square root. -/
def rsqrt (a : ℝ) : ℝ := (Real.sqrt a)⁻¹

/-- The statistics-and-normalise core shared by both layers, translated from
`LayerNorm.__call__` lines 103-107 (and, applied blockwise, from
`GroupNorm.__call__` lines 195-199):
`mean = jnp.mean(x)`; `variance = jnp.var(x)`;
`variance = jnp.maximum(0.0, variance)`; `inv = lax.rsqrt(variance + eps)`;
`out = (x - mean) * inv`. -/
def normaliseBlock (eps : ℝ) (l : List ℝ) : List ℝ :=
  let mean := jnpMean l
  let variance := max 0 (jnpVar l)
  let inv := rsqrt (variance + eps)
  l.map (fun a => (a - mean) * inv)

/-- `jnp.ones(shape)`: an all-ones array of the given shape; raises when the
shape is `None` (JAX `canonicalize_shape` rejects `None`). -/
def jnpOnes : Option (List ℕ) → Except String (List ℝ)
  | none => .error "Shapes must be 1D sequences of concrete values of integer type"
  | some s => .ok (List.replicate s.prod 1)

/-- `jnp.zeros(shape)`: an all-zeros array of the given shape; raises when the
shape is `None`. -/
def jnpZeros : Option (List ℕ) → Except String (List ℝ)
  | none => .error "Shapes must be 1D sequences of concrete values of integer type"
  | some s => .ok (List.replicate s.prod 0)

/-- The fields of an `eqx.nn.LayerNorm` module.  `shape` is `None` or a list of
axis sizes (a plain `int` shape is the one-element list). -/
structure LayerNorm where
  shape : Option (List ℕ)
  eps : ℝ
  use_weight : Bool
  use_bias : Bool
  weight : Option (List ℝ)
  bias : Option (List ℝ)

/-- `LayerNorm.__init__`.  The deprecated `elementwise_affine` argument, when
not `None`, overrides both `use_weight` and `use_bias` and emits a deprecation
warning (the returned `Bool` records whether the warning was emitted).
`weight = jnp.ones(shape) if use_weight else None` and
`bias = jnp.zeros(shape) if use_bias else None` raise when `shape` is `None`. -/
def LayerNorm.init (shape : Option (List ℕ)) (eps : ℝ) (uw ub : Bool)
    (elementwise_affine : Option Bool) : Except String (LayerNorm × Bool) :=
  let use_weight := match elementwise_affine with | some b => b | none => uw
  let use_bias := match elementwise_affine with | some b => b | none => ub
  let warned := elementwise_affine.isSome
  do
    let weight ← if use_weight then (jnpOnes shape).map some else .ok none
    let bias ← if use_bias then (jnpZeros shape).map some else .ok none
    return ({ shape := shape, eps := eps, use_weight := use_weight,
              use_bias := use_bias, weight := weight, bias := bias }, warned)

/-- `LayerNorm.__call__`: normalise the whole array with a single mean and
variance, then optionally apply the elementwise affine transform.  The `key`
argument is accepted and never read. -/
def LayerNorm.call (m : LayerNorm) (x : List ℝ) (key : Option ℕ) : List ℝ :=
  let out := normaliseBlock m.eps x
  let out := if m.use_weight then List.zipWith (· * ·) (m.weight.getD []) out else out
  if m.use_bias then List.zipWith (· + ·) out (m.bias.getD []) else out

/-- The fields of an `eqx.nn.GroupNorm` module. -/
structure GroupNorm where
  groups : ℕ
  channels : Option ℕ
  eps : ℝ
  channelwise_affine : Bool
  weight : Option (List ℝ)
  bias : Option (List ℝ)

/-- `GroupNorm.__init__`: rejects `channels % groups != 0` when `channels` is
known, and `channels is None` together with `channelwise_affine=True`;
otherwise stores the configuration with `weight = jnp.ones(channels)` and
`bias = jnp.zeros(channels)` when `channelwise_affine` and `None` otherwise. -/
def GroupNorm.init (groups : ℕ) (channels : Option ℕ) (eps : ℝ)
    (channelwise_affine : Bool) : Except String GroupNorm :=
  match channels with
  | some c =>
    if c % groups ≠ 0 then
      .error "The number of groups must divide the number of channels."
    else
      .ok { groups := groups, channels := some c, eps := eps,
            channelwise_affine := channelwise_affine,
            weight := if channelwise_affine then some (List.replicate c 1) else none,
            bias := if channelwise_affine then some (List.replicate c 0) else none }
  | none =>
    if channelwise_affine then
      .error "The number of channels should be specified if channelwise_affine=True"
    else
      .ok { groups := groups, channels := none, eps := eps,
            channelwise_affine := channelwise_affine, weight := none, bias := none }

/-- Split a flat row-major array into `g` contiguous blocks of `size` elements
each: the semantics of `x.reshape(groups, channels // groups, *x.shape[1:])`
followed by mapping (`jax.vmap`) over the new leading axis. -/
def chunkBlocks : ℕ → ℕ → List ℝ → List (List ℝ)
  | 0, _, _ => []
  | g + 1, size, l => l.take size :: chunkBlocks g size (l.drop size)

/-- `left_broadcast_to(arr, shape)` for a 1-D `arr` of length `C` and a target
shape `(C, d1, ..., dk)` with trailing element count `T = d1 * ... * dk`:
each entry of `arr` is replicated across the `T` trailing positions of its
channel (row-major). -/
def left_broadcast_to (arr : List ℝ) (T : ℕ) : List ℝ :=
  (arr.map (fun a => List.replicate T a)).flatten

/-- `GroupNorm.__call__`.  `channels = x.shape[0]` is read from the input
(raising on a 0-d input); the reshape to `(groups, channels // groups, ...)`
raises when the element counts disagree; each group is normalised with its own
mean and variance; the reshape back to `x.shape` is the identity on the flat
data; finally the optional channelwise affine transform broadcasts `weight`
and `bias` across the trailing axes.  `key` is accepted and never read. -/
def GroupNorm.call (m : GroupNorm) (shape : List ℕ) (x : List ℝ)
    (key : Option ℕ) : Except String (List ℝ) :=
  match shape with
  | [] => .error "IndexError: too many indices for array"
  | channels :: trailing =>
    let T := trailing.prod
    if m.groups * (channels / m.groups) * T ≠ channels * T then
      .error "cannot reshape array"
    else
      let out := ((chunkBlocks m.groups ((channels / m.groups) * T) x).map
        (normaliseBlock m.eps)).flatten
      if m.channelwise_affine then
        match m.weight, m.bias with
        | some w, some b =>
          if w.length = channels ∧ b.length = channels then
            .ok (List.zipWith (· + ·)
              (List.zipWith (· * ·) (left_broadcast_to w T) out)
              (left_broadcast_to b T))
          else .error "Incompatible shapes for broadcasting"
        | _, _ => .error "TypeError: unsupported operand type NoneType"
      else .ok out

/-! ### Helper lemmas -/

lemma length_normaliseBlock (eps : ℝ) (l : List ℝ) :
    (normaliseBlock eps l).length = l.length := by
  simp [normaliseBlock]

lemma jnpMean_replicate (n : ℕ) (c : ℝ) (hn : n ≠ 0) :
    jnpMean (List.replicate n c) = c := by
  have hn' : (n : ℝ) ≠ 0 := Nat.cast_ne_zero.mpr hn
  rw [jnpMean, List.sum_replicate, List.length_replicate, nsmul_eq_mul,
    mul_div_cancel_left₀ _ hn']

lemma jnpVar_replicate (n : ℕ) (c : ℝ) :
    jnpVar (List.replicate n c) = 0 := by
  rcases Nat.eq_zero_or_pos n with h | h
  · subst h; simp [jnpVar, jnpMean]
  · rw [jnpVar, jnpMean_replicate n c h.ne', List.map_replicate]
    simp [jnpMean]

lemma normaliseBlock_replicate (eps : ℝ) (n : ℕ) (c : ℝ) :
    normaliseBlock eps (List.replicate n c) = List.replicate n 0 := by
  rcases Nat.eq_zero_or_pos n with h | h
  · subst h; simp [normaliseBlock]
  · simp [normaliseBlock, jnpMean_replicate n c h.ne', List.map_replicate]

lemma chunkBlocks_replicate (s : ℕ) (c : ℝ) :
    ∀ g : ℕ, chunkBlocks g s (List.replicate (g * s) c)
      = List.replicate g (List.replicate s c) := by
  intro g
  induction g with
  | zero => simp [chunkBlocks]
  | succ g ih =>
    have hs : s ≤ (g + 1) * s := Nat.le_mul_of_pos_left s (Nat.succ_pos g)
    have h2 : (g + 1) * s - s = g * s := by
      have : (g + 1) * s = g * s + s := by ring
      omega
    simp only [chunkBlocks, List.take_replicate, List.drop_replicate]
    rw [min_eq_left hs, h2, ih, List.replicate_succ]

lemma flatten_replicate (g s : ℕ) (a : ℝ) :
    (List.replicate g (List.replicate s a)).flatten = List.replicate (g * s) a := by
  induction g with
  | zero => simp
  | succ g ih =>
    rw [List.replicate_succ, List.flatten_cons, ih]
    rw [show (g + 1) * s = s + g * s by ring, List.replicate_add]

lemma flatten_chunkBlocks_length (eps : ℝ) :
    ∀ (g s : ℕ) (l : List ℝ), l.length = g * s →
      (((chunkBlocks g s l).map (normaliseBlock eps)).flatten).length = g * s := by
  intro g
  induction g with
  | zero => intro s l h; simp [chunkBlocks]
  | succ g ih =>
    intro s l h
    have hs : s ≤ l.length := by
      rw [h]; exact Nat.le_mul_of_pos_left s (Nat.succ_pos g)
    simp only [chunkBlocks, List.map_cons, List.flatten_cons, List.length_append,
      length_normaliseBlock, List.length_take]
    have hdrop : (l.drop s).length = g * s := by
      rw [List.length_drop, h]; rw [Nat.succ_mul]; omega
    rw [ih s (l.drop s) hdrop]
    rw [min_eq_left hs, Nat.succ_mul]; omega

lemma flatten_chunkBlocks_slice (eps : ℝ) :
    ∀ (g s : ℕ) (l : List ℝ) (j : ℕ), l.length = g * s → j < g →
      ((((chunkBlocks g s l).map (normaliseBlock eps)).flatten).drop (j * s)).take s
        = normaliseBlock eps ((l.drop (j * s)).take s) := by
  intro g
  induction g with
  | zero => intro s l j _ hj; omega
  | succ g ih =>
    intro s l j h hj
    have hs : s ≤ l.length := by
      rw [h]; exact Nat.le_mul_of_pos_left s (Nat.succ_pos g)
    have hlenA : (normaliseBlock eps (l.take s)).length = s := by
      rw [length_normaliseBlock, List.length_take, min_eq_left hs]
    have hdrop : (l.drop s).length = g * s := by
      rw [List.length_drop, h]; rw [Nat.succ_mul]; omega
    rcases Nat.eq_zero_or_pos j with hj0 | hjpos
    · subst hj0
      have := List.take_left (normaliseBlock eps (l.take s))
        ((List.map (normaliseBlock eps) (chunkBlocks g s (l.drop s))).flatten)
      rw [hlenA] at this
      simp only [chunkBlocks, List.map_cons, List.flatten_cons, Nat.zero_mul,
        List.drop_zero]
      exact this
    · obtain ⟨j', rfl⟩ : ∃ j', j = j' + 1 := ⟨j - 1, by omega⟩
      have h1 : (j' + 1) * s = s + j' * s := by ring
      rw [h1]
      simp only [chunkBlocks, List.map_cons, List.flatten_cons]
      conv_lhs => rw [show s + j' * s
        = (normaliseBlock eps (l.take s)).length + j' * s from by rw [hlenA]]
      rw [← List.drop_drop, List.drop_left]
      rw [ih s (l.drop s) j' hdrop (by omega), List.drop_drop]

lemma call_noaffine (g : ℕ) (ch : Option ℕ) (eps : ℝ) (w b : Option (List ℝ))
    (C : ℕ) (tr : List ℕ) (x : List ℝ) (k : Option ℕ)
    (hres : g * (C / g) * tr.prod = C * tr.prod) :
    GroupNorm.call ⟨g, ch, eps, false, w, b⟩ (C :: tr) x k
      = .ok (((chunkBlocks g ((C / g) * tr.prod) x).map (normaliseBlock eps)).flatten) := by
  simp [GroupNorm.call, hres]

/-! ### Claim theorems -/

/-- Claim C9: the optional `key` argument of `LayerNorm.__call__` and
`GroupNorm.__call__` is accepted but never read, so any two key values
(including `None`) give identical outputs. -/
theorem C9_key_ignored :
    ∀ (m : LayerNorm) (gm : GroupNorm) (x : List ℝ) (shape : List ℕ)
      (k1 k2 : Option ℕ),
      LayerNorm.call m x k1 = LayerNorm.call m x k2
      ∧ GroupNorm.call gm shape x k1 = GroupNorm.call gm shape x k2 :=
  fun _ _ _ _ _ _ => ⟨rfl, rfl⟩

/-- Claim C4: `GroupNorm.__init__` fails exactly when `channels` is known and
not divisible by `groups`, or `channels` is unknown while
`channelwise_affine=True`; in particular `GroupNorm(3, 10)` and
`GroupNorm(2, None, channelwise_affine=True)` are rejected. -/
theorem C4_groupNorm_init_validation :
    (∀ (groups : ℕ) (channels : Option ℕ) (eps : ℝ) (cwa : Bool),
      (∃ e, GroupNorm.init groups channels eps cwa = .error e) ↔
        ((∃ c, channels = some c ∧ c % groups ≠ 0) ∨ (channels = none ∧ cwa = true)))
    ∧ (∃ e, GroupNorm.init 3 (some 10) (1 / 100000) true = .error e)
    ∧ (∃ e, GroupNorm.init 2 none (1 / 100000) true = .error e) := by
  refine ⟨fun groups channels eps cwa => ?_, ⟨_, rfl⟩, ⟨_, rfl⟩⟩
  match channels with
  | some c =>
    by_cases h : c % groups = 0 <;> simp [GroupNorm.init, h]
  | none =>
    cases cwa <;> simp [GroupNorm.init]

/-- Claim C7: constructing `LayerNorm` with `shape=None` while an affine
parameter is enabled fails synchronously in the constructor; in particular
`LayerNorm(shape=None, use_weight=True)` (with the default `use_bias=True`)
is rejected. -/
theorem C7_layerNorm_init_missing_shape (eps : ℝ) (uw ub : Bool)
    (h : uw = true ∨ ub = true) :
    (∃ e, LayerNorm.init none eps uw ub none = .error e)
    ∧ (∃ e, LayerNorm.init none eps true true none = .error e) := by
  constructor
  · rcases h with h | h <;> subst h
    · exact ⟨_, rfl⟩
    · cases uw <;> exact ⟨_, rfl⟩
  · exact ⟨_, rfl⟩

/-- Claim C7 witness at `eps = 1`, `use_weight = use_bias = True`. -/
theorem C7_layerNorm_init_missing_shape_witness :
    (true = true ∨ true = true)
    ∧ (∃ e, LayerNorm.init none 1 true true none = .error e) :=
  ⟨Or.inl rfl, (C7_layerNorm_init_missing_shape 1 true true (Or.inl rfl)).1⟩

/-- Claim C6: disabling the affine parameters is an exact no-op.  With
`use_weight = use_bias = false`, `LayerNorm.__call__` returns exactly the
pre-affine normalised value whatever `weight`/`bias` fields are stored; with
`channelwise_affine = false`, `GroupNorm.__call__` returns exactly the
pre-affine per-group normalised value. -/
theorem C6_affine_disabled_noop (eps : ℝ) (sh : Option (List ℕ))
    (w b : Option (List ℝ)) (x : List ℝ) (k : Option ℕ) (g C : ℕ)
    (ch : Option ℕ) (tr : List ℕ)
    (hres : g * (C / g) * tr.prod = C * tr.prod) :
    LayerNorm.call ⟨sh, eps, false, false, w, b⟩ x k = normaliseBlock eps x
    ∧ GroupNorm.call ⟨g, ch, eps, false, w, b⟩ (C :: tr) x k
        = .ok (((chunkBlocks g ((C / g) * tr.prod) x).map (normaliseBlock eps)).flatten) := by
  constructor
  · simp [LayerNorm.call]
  · simp [GroupNorm.call, hres]

/-- Claim C6 witness: `eps = 1`, stored (ignored) affine parameters, a
4-element input split into 2 groups. -/
theorem C6_affine_disabled_noop_witness :
    (2 * (4 / 2) * List.prod [] = 4 * List.prod [])
    ∧ LayerNorm.call ⟨some [4], 1, false, false, some [5, 5, 5, 5], some [7, 7, 7, 7]⟩
        [1, 2, 3, 4] none = normaliseBlock 1 [1, 2, 3, 4]
    ∧ GroupNorm.call ⟨2, some 4, 1, false, some [5, 5, 5, 5], some [7, 7, 7, 7]⟩
        [4] [1, 2, 3, 4] none
        = .ok (((chunkBlocks 2 ((4 / 2) * List.prod []) [1, 2, 3, 4]).map
            (normaliseBlock 1)).flatten) :=
  ⟨rfl, C6_affine_disabled_noop 1 (some [4]) (some [5, 5, 5, 5]) (some [7, 7, 7, 7])
    [1, 2, 3, 4] none 2 4 (some 4) [] rfl⟩

/-- Claim C3: `GroupNorm` constructed with `groups=1`, `channels=C`,
`channelwise_affine=False` produces, on an input of shape `(C, ...)`, exactly
the same output as `LayerNorm` with the same `eps` and no affine parameters
applied to the full array. -/
theorem C3_groupNorm_one_group_eq_layerNorm (C : ℕ) (ds : List ℕ) (eps : ℝ)
    (x : List ℝ) (m : GroupNorm)
    (hm : GroupNorm.init 1 (some C) eps false = .ok m)
    (hlen : x.length = C * ds.prod) :
    GroupNorm.call m (C :: ds) x none
      = .ok (LayerNorm.call ⟨some (C :: ds), eps, false, false, none, none⟩ x none) := by
  have hm' : m = ⟨1, some C, eps, false, none, none⟩ := by
    simp [GroupNorm.init, Nat.mod_one] at hm
    exact hm.symm
  subst hm'
  have hchunk : chunkBlocks 1 (C / 1 * ds.prod) x = [x.take (C / 1 * ds.prod)] := rfl
  have htake : x.take (C / 1 * ds.prod) = x := by
    rw [Nat.div_one, ← hlen, List.take_length]
  rw [call_noaffine 1 (some C) eps none none C ds x none (by rw [Nat.div_one, one_mul]),
    hchunk, htake]
  simp [LayerNorm.call]

/-- Claim C3 witness: `C = 2`, trailing shape `[]`, `eps = 1`, input `[1, 2]`. -/
theorem C3_groupNorm_one_group_eq_layerNorm_witness :
    (GroupNorm.init 1 (some 2) 1 false = .ok ⟨1, some 2, 1, false, none, none⟩
      ∧ ([(1 : ℝ), 2].length = 2 * List.prod []))
    ∧ GroupNorm.call ⟨1, some 2, 1, false, none, none⟩ [2] [1, 2] none
        = .ok (LayerNorm.call ⟨some [2], 1, false, false, none, none⟩ [1, 2] none) :=
  ⟨⟨rfl, rfl⟩, C3_groupNorm_one_group_eq_layerNorm 2 [] 1 [1, 2]
    ⟨1, some 2, 1, false, none, none⟩ rfl rfl⟩

/-- Claim C5: for positive `eps`, a constant input is normalised to exactly 0
at every element (pre-affine), for both layers; the variance is 0, so the
inverse standard deviation is the finite value `1 / sqrt eps > 0`. -/
theorem C5_constant_input_zero (eps : ℝ) (heps : 0 < eps) (n : ℕ) (c : ℝ) :
    LayerNorm.call ⟨some [n], eps, false, false, none, none⟩ (List.replicate n c) none
      = List.replicate n 0
    ∧ (∀ (g k : ℕ) (tr : List ℕ),
        GroupNorm.call ⟨g, none, eps, false, none, none⟩ (g * k :: tr)
          (List.replicate (g * k * tr.prod) c) none
          = .ok (List.replicate (g * k * tr.prod) 0))
    ∧ rsqrt (max 0 (jnpVar (List.replicate n c)) + eps) = (Real.sqrt eps)⁻¹
    ∧ 0 < (Real.sqrt eps)⁻¹ := by
  refine ⟨?_, ?_, ?_, ?_⟩
  · simp [LayerNorm.call, normaliseBlock_replicate]
  · intro g k tr
    rcases Nat.eq_zero_or_pos g with hg | hg
    · subst hg
      simp [GroupNorm.call, chunkBlocks]
    · have hdiv : g * k / g = k := Nat.mul_div_cancel_left k hg
      have h3 : g * k * tr.prod = g * (k * tr.prod) := by ring
      rw [call_noaffine g none eps none none (g * k) tr _ none (by rw [hdiv]),
        hdiv, h3, chunkBlocks_replicate (k * tr.prod) c g, List.map_replicate,
        normaliseBlock_replicate, flatten_replicate]
  · rw [jnpVar_replicate]
    simp [rsqrt]
  · exact inv_pos.mpr (Real.sqrt_pos.mpr heps)

/-- Claim C5 witness: `eps = 1`, a length-3 constant array of value 5. -/
theorem C5_constant_input_zero_witness :
    (0 : ℝ) < 1
    ∧ LayerNorm.call ⟨some [3], 1, false, false, none, none⟩ (List.replicate 3 5) none
        = List.replicate 3 0 :=
  ⟨by norm_num, (C5_constant_input_zero 1 (by norm_num) 3 5).1⟩

/-- Claim C10: `GroupNorm.__call__` derives the channel count from the input:
the stored `channels` field is never consulted (changing it never changes the
output), and with `channelwise_affine=False`, an input whose leading axis is
divisible by `groups` is processed successfully with output shape equal to the
input shape, whatever the configured `channels`. -/
theorem C10_channels_from_input (m : GroupNorm) (C : ℕ) (tr : List ℕ)
    (x : List ℝ) (k : Option ℕ)
    (hcwa : m.channelwise_affine = false) (hdvd : m.groups ∣ C)
    (hlen : x.length = C * tr.prod) :
    (∀ (ch : Option ℕ) (shape : List ℕ) (y : List ℝ) (k2 : Option ℕ),
      GroupNorm.call { m with channels := ch } shape y k2
        = GroupNorm.call m shape y k2)
    ∧ ∃ out, GroupNorm.call m (C :: tr) x k = .ok out
        ∧ out.length = x.length := by
  constructor
  · intro ch shape y k2
    rfl
  · obtain ⟨g, chm, eps, cwa, w, b⟩ := m
    simp only at hcwa hdvd
    subst hcwa
    have hres : g * (C / g) * tr.prod = C * tr.prod := by
      rw [Nat.mul_div_cancel' hdvd]
    have hx : x.length = g * (C / g * tr.prod) := by
      rw [hlen, ← mul_assoc, Nat.mul_div_cancel' hdvd]
    exact ⟨_, call_noaffine g chm eps w b C tr x k hres,
      (flatten_chunkBlocks_length eps g (C / g * tr.prod) x hx).trans hx.symm⟩

/-- Claim C10 witness: configured `channels = 999` differs from the input's
4 channels; `groups = 2` divides 4 and the call succeeds, preserving shape. -/
theorem C10_channels_from_input_witness :
    ((⟨2, some 999, 1, false, none, none⟩ : GroupNorm).channelwise_affine = false
      ∧ 2 ∣ 4 ∧ ([(1 : ℝ), 2, 3, 4].length = 4 * List.prod []))
    ∧ ∃ out, GroupNorm.call ⟨2, some 999, 1, false, none, none⟩ [4] [1, 2, 3, 4] none
        = .ok out ∧ out.length = [(1 : ℝ), 2, 3, 4].length :=
  ⟨⟨rfl, ⟨2, rfl⟩, rfl⟩,
    (C10_channels_from_input ⟨2, some 999, 1, false, none, none⟩ 4 [] [1, 2, 3, 4]
      none rfl ⟨2, rfl⟩ rfl).2⟩

/-- Claim C2: `GroupNorm` partitions the leading axis into `groups` contiguous
equal blocks, normalises each block (the group's channel sub-axis together
with all trailing axes) with that block's own single mean/variance pair, and
reassembles the blocks in order; consequently each group's output slice is a
function of that group's input slice alone (with `groups = channels`, each
channel's statistics depend only on its own trailing-axis slice). -/
theorem C2_groupNorm_grouping (g k : ℕ) (eps : ℝ) (tr : List ℕ) (x : List ℝ)
    (hg : 0 < g) (hlen : x.length = g * k * tr.prod) :
    ∃ out, GroupNorm.call ⟨g, none, eps, false, none, none⟩ (g * k :: tr) x none
        = .ok out
      ∧ out = ((chunkBlocks g (k * tr.prod) x).map (normaliseBlock eps)).flatten
      ∧ ∀ j, j < g → (out.drop (j * (k * tr.prod))).take (k * tr.prod)
          = normaliseBlock eps ((x.drop (j * (k * tr.prod))).take (k * tr.prod)) := by
  have hdiv : g * k / g = k := Nat.mul_div_cancel_left k hg
  refine ⟨_, call_noaffine g none eps none none (g * k) tr x none (by rw [hdiv]),
    ?_, ?_⟩
  · rw [hdiv]
  · intro j hj
    rw [hdiv]
    exact flatten_chunkBlocks_slice eps g (k * tr.prod) x j (by rw [hlen]; ring) hj

/-- Claim C2 witness: 2 groups of 1 channel each, no trailing axes,
input `[1, 2]`. -/
theorem C2_groupNorm_grouping_witness :
    (0 < 2 ∧ ([(1 : ℝ), 2].length = 2 * 1 * List.prod []))
    ∧ ∃ out, GroupNorm.call ⟨2, none, 1, false, none, none⟩ (2 * 1 :: []) [1, 2] none
        = .ok out
      ∧ out = ((chunkBlocks 2 (1 * List.prod []) [1, 2]).map (normaliseBlock 1)).flatten
      ∧ ∀ j, j < 2 → (out.drop (j * (1 * List.prod []))).take (1 * List.prod [])
          = normaliseBlock 1 (([(1 : ℝ), 2].drop (j * (1 * List.prod []))).take
              (1 * List.prod [])) :=
  ⟨⟨by norm_num, rfl⟩, C2_groupNorm_grouping 2 1 1 [] [1, 2] (by norm_num) rfl⟩

/-- Claim C8: when the deprecated `elementwise_affine` argument is not `None`
it overrides both `use_weight` and `use_bias` (whatever they were passed as)
and the deprecation warning is emitted; when it is `None`, the two flags are
taken as passed and no warning is emitted. -/
theorem C8_elementwise_affine_override (shape : Option (List ℕ)) (eps : ℝ)
    (uw ub b : Bool) (m : LayerNorm) (warned : Bool) :
    (LayerNorm.init shape eps uw ub (some b) = .ok (m, warned) →
      m.use_weight = b ∧ m.use_bias = b ∧ warned = true)
    ∧ (LayerNorm.init shape eps uw ub none = .ok (m, warned) →
      m.use_weight = uw ∧ m.use_bias = ub ∧ warned = false) := by
  constructor
  · intro h
    cases shape <;> cases b <;>
      simp [LayerNorm.init, jnpOnes, jnpZeros] at h <;>
      obtain ⟨rfl, rfl⟩ := h <;> exact ⟨rfl, rfl, rfl⟩
  · intro h
    cases shape <;> cases uw <;> cases ub <;>
      simp [LayerNorm.init, jnpOnes, jnpZeros] at h <;>
      obtain ⟨rfl, rfl⟩ := h <;> exact ⟨rfl, rfl, rfl⟩

/-- Claim C8 witness: `use_weight=use_bias=False` passed, but
`elementwise_affine=True` overrides both to `True` and warns. -/
theorem C8_elementwise_affine_override_witness :
    LayerNorm.init (some [2]) 1 false false (some true)
      = .ok (⟨some [2], 1, true, true, some (List.replicate 2 1),
          some (List.replicate 2 0)⟩, true)
    ∧ ((⟨some [2], 1, true, true, some (List.replicate 2 1),
          some (List.replicate 2 0)⟩ : LayerNorm).use_weight = true
        ∧ (⟨some [2], 1, true, true, some (List.replicate 2 1),
            some (List.replicate 2 0)⟩ : LayerNorm).use_bias = true
        ∧ true = true) :=
  ⟨rfl, (C8_elementwise_affine_override (some [2]) 1 false false true
    ⟨some [2], 1, true, true, some (List.replicate 2 1),
      some (List.replicate 2 0)⟩ true).1 rfl⟩

/-- Claim C1: `LayerNorm` with no affine parameters returns
`(x - mean) * inv` where `mean` is the mean over every element, the variance
is the population variance floored at 0, and `inv = 1/sqrt(variance + eps)`;
enabling `use_weight`/`use_bias` multiplies by `weight` and adds `bias`
elementwise; and on `[1,2,3,4]` with `eps=0` and no affine, the output is
within `10⁻⁴` of `[-1.3416, -0.4472, 0.4472, 1.3416]`. -/
theorem C1_layerNorm_formula :
    (∀ (eps : ℝ) (sh : Option (List ℕ)) (x : List ℝ),
      LayerNorm.call ⟨sh, eps, false, false, none, none⟩ x none
        = x.map (fun a => (a - x.sum / (x.length : ℝ))
            * (Real.sqrt (max 0 ((x.map (fun v => (v - x.sum / (x.length : ℝ)) ^ 2)).sum
                / (x.length : ℝ)) + eps))⁻¹))
    ∧ (∀ (eps : ℝ) (sh : Option (List ℕ)) (x w b : List ℝ),
      LayerNorm.call ⟨sh, eps, true, true, some w, some b⟩ x none
        = List.zipWith (· + ·)
            (List.zipWith (· * ·) w
              (LayerNorm.call ⟨sh, eps, false, false, none, none⟩ x none)) b)
    ∧ (|(LayerNorm.call ⟨some [4], 0, false, false, none, none⟩
          [1, 2, 3, 4] none).getD 0 0 - (-1.3416)| < 1 / 10000
      ∧ |(LayerNorm.call ⟨some [4], 0, false, false, none, none⟩
          [1, 2, 3, 4] none).getD 1 0 - (-0.4472)| < 1 / 10000
      ∧ |(LayerNorm.call ⟨some [4], 0, false, false, none, none⟩
          [1, 2, 3, 4] none).getD 2 0 - 0.4472| < 1 / 10000
      ∧ |(LayerNorm.call ⟨some [4], 0, false, false, none, none⟩
          [1, 2, 3, 4] none).getD 3 0 - 1.3416| < 1 / 10000) := by
  refine ⟨?_, ?_, ?_⟩
  · intro eps sh x
    simp [LayerNorm.call, normaliseBlock, jnpVar, jnpMean, rsqrt]
  · intro eps sh x w b
    simp [LayerNorm.call]
  · have hmean : jnpMean [(1 : ℝ), 2, 3, 4] = 5 / 2 := by
      norm_num [jnpMean]
    have hvar : jnpVar [(1 : ℝ), 2, 3, 4] = 5 / 4 := by
      simp only [jnpVar, hmean]
      norm_num [jnpMean]
    have hcall : LayerNorm.call ⟨some [4], 0, false, false, none, none⟩
        [1, 2, 3, 4] none
        = [(1 - 5 / 2) * (Real.sqrt (5 / 4))⁻¹, (2 - 5 / 2) * (Real.sqrt (5 / 4))⁻¹,
           (3 - 5 / 2) * (Real.sqrt (5 / 4))⁻¹, (4 - 5 / 2) * (Real.sqrt (5 / 4))⁻¹] := by
      simp only [LayerNorm.call, normaliseBlock, hmean, hvar, rsqrt,
        if_neg Bool.false_ne_true]
      norm_num
    have hspos : 0 < Real.sqrt (5 / 4) := Real.sqrt_pos.mpr (by norm_num)
    have hkey : Real.sqrt (5 / 4) * (Real.sqrt (5 / 4))⁻¹ = 1 :=
      mul_inv_cancel₀ hspos.ne'
    have hinvpos : 0 < (Real.sqrt (5 / 4))⁻¹ := inv_pos.mpr hspos
    have hlo : (1.118 : ℝ) < Real.sqrt (5 / 4) :=
      (Real.lt_sqrt (by norm_num)).mpr (by norm_num)
    have hhi : Real.sqrt (5 / 4) < 1.11804 :=
      (Real.sqrt_lt' (by norm_num)).mpr (by norm_num)
    have hinvlo : (0.8944 : ℝ) < (Real.sqrt (5 / 4))⁻¹ := by
      nlinarith [hkey, hhi, hinvpos]
    have hinvhi : (Real.sqrt (5 / 4))⁻¹ < (0.89446 : ℝ) := by
      nlinarith [hkey, hlo, hinvpos]
    rw [hcall]
    refine ⟨?_, ?_, ?_, ?_⟩ <;>
      · simp only [List.getD, List.get?, Option.getD]
        rw [abs_lt]
        constructor <;> nlinarith [hinvlo, hinvhi]

end

end Equinox
